import Mathlib

/-!
Verification development for an interactive Monte Carlo path tracer written
in C (single translation unit plus a camera header).  The C code is shallowly
embedded here: IEEE single-precision arithmetic is modelled by exact rational
arithmetic (`ℚ`); the square roots computed by library calls are supplied as
explicit oracle arguments constrained in theorem hypotheses; the IEEE
behaviour of division by zero inside the box slab test is modelled by an
extended-rational type with signed infinities and a NaN.  Randomness
(`random_direction`, `random_float`) and the external camera collaborator
(`ray_through_screen_at`) are passed in as function parameters.
-/

namespace RayTracing

/-- Embeds `Vector3` (header `vector.h`, declared but not in the sources).
Modelled from the spec: a triple of floats, here exact rationals. -/
structure Vec3 where
  x : ℚ
  y : ℚ
  z : ℚ
deriving DecidableEq

/-- Embeds `Ray`: origin and direction. -/
structure Ray where
  origin : Vec3
  direction : Vec3
deriving DecidableEq

/-- Embeds `Sphere`: center and radius. -/
structure Sphere where
  center : Vec3
  radius : ℚ
deriving DecidableEq

/-- Embeds `Cube` (axis-aligned box): min corner `origin` and `size`. -/
structure Cube where
  origin : Vec3
  size : Vec3
deriving DecidableEq

/-- Embeds `Material`. -/
structure Material where
  albedo : Vec3
  roughness : ℚ
  reflectance : ℚ
  metallic : ℚ
  emission_power : ℚ
  emission_color : Vec3
deriving DecidableEq

/-- Embeds the tagged union inside `Object` (`ObjectType` plus the union). -/
inductive ObjectGeom where
  | OSphere (s : Sphere)
  | OCube (c : Cube)
deriving DecidableEq

/-- Embeds `Object`: geometry tag plus material. -/
structure Object where
  geom : ObjectGeom
  material : Material
deriving DecidableEq

/-- Modelled from the spec: linear combination `a·alpha + b·beta` of `vector.h`
(the function `combine` used throughout the C sources). -/
def combine (a b : Vec3) (alpha beta : ℚ) : Vec3 :=
  ⟨a.x * alpha + b.x * beta, a.y * alpha + b.y * beta, a.z * alpha + b.z * beta⟩

/-- Modelled from the spec: dot product of `vector.h`. -/
def dotv (a b : Vec3) : ℚ :=
  a.x * b.x + a.y * b.y + a.z * b.z

/-- Modelled from the spec: scalar scale of `vector.h`. -/
def scale (a : Vec3) (k : ℚ) : Vec3 :=
  ⟨a.x * k, a.y * k, a.z * k⟩

/-- Modelled from the spec: componentwise product of `vector.h` (`mulv`). -/
def mulv (a b : Vec3) : Vec3 :=
  ⟨a.x * b.x, a.y * b.y, a.z * b.z⟩

/-- Modelled from the spec: normalization `v / |v|` of `vector.h`.  The length
`sqrt (dotv v v)` is not rational in general, so it is supplied by the caller
as the oracle argument `len`; theorems constrain it where its value matters. -/
def normalize (v : Vec3) (len : ℚ) : Vec3 :=
  scale v (1 / len)

/-- Embeds `maxf`. -/
def maxf (x y : ℚ) : ℚ := if x > y then x else y

/-- Embeds `minf`. -/
def minf (x y : ℚ) : ℚ := if x < y then x else y

/-- Embeds `absf`. -/
def absf (x : ℚ) : ℚ := if x < 0 then -x else x

/-- Embeds `clamp` (the `assert(min <= max)` is a precondition, always
satisfied at the call sites appearing in the claims, where `min, max = 0, 1`
or `-1, 1`). -/
def clamp (x mn mx : ℚ) : ℚ :=
  if x < mn then mn else if x > mx then mx else x

/-- Embeds `vec_from_scalar`. -/
def vec_from_scalar (s : ℚ) : Vec3 := ⟨s, s, s⟩

/-- Embeds `avgv`. -/
def avgv (v : Vec3) : ℚ := (v.x + v.y + v.z) / 3

/-- Embeds `iszerof`: zero test with tolerance 1e-4. -/
def iszerof (f : ℚ) : Prop := f < 1/10000 ∧ f > -(1/10000)

instance (f : ℚ) : Decidable (iszerof f) := by
  unfold iszerof; infer_instance

/-- Embeds `iszerov`. -/
def iszerov (v : Vec3) : Prop := iszerof v.x ∧ iszerof v.y ∧ iszerof v.z

instance (v : Vec3) : Decidable (iszerov v) := by
  unfold iszerov; infer_instance

/-- Embeds `reflect`. -/
def reflect (dir normal : Vec3) : Vec3 :=
  combine dir normal 1 (-2 * dotv normal dir)

/-- Embeds `fresnelSchlick` (line 69): `f0 + (1 - f0) * (1 - u)^5`. -/
def fresnelSchlick (u : ℚ) (f0 : Vec3) : Vec3 :=
  combine f0 (combine (vec_from_scalar 1) f0 1 (-1)) 1 ((1 - u) ^ 5)

/-- Embeds `origin_of`: a sphere's center, or the box center `origin + size/2`. -/
def origin_of (o : Object) : Vec3 :=
  match o.geom with
  | .OSphere s => s.center
  | .OCube c => combine c.origin c.size 1 (1/2)

/-- Embeds the `CubeFace` enum, in C declaration order. -/
inductive CubeFace where
  | CF_FRONT
  | CF_BACK
  | CF_LEFT
  | CF_RIGHT
  | CF_TOP
  | CF_BOTTOM
deriving DecidableEq

/-- Embeds `Cubemap`: six face images of identical `w × h` with `chan`
channels; the raw byte arrays `data[6]` are modelled as functions from face
and flat byte index to byte value. -/
structure Cubemap where
  data : CubeFace → ℕ → ℕ
  w : ℕ
  h : ℕ
  chan : ℕ

/-- Embeds the face/uv selection part of `sample_cubemap` (lines 120-170,
with `eps = 0`): dominant-axis branching, returning the face and raw u, v. -/
def cubemap_face_uv (dir : Vec3) : CubeFace × ℚ × ℚ :=
  let abs_x := absf dir.x
  let abs_y := absf dir.y
  let abs_z := absf dir.z
  if abs_x > abs_y ∧ abs_x > abs_z then
    if dir.x > 0 then
      (CubeFace.CF_RIGHT, -dir.z / abs_x, -dir.y / abs_x)
    else
      (CubeFace.CF_LEFT, dir.z / abs_x, -dir.y / abs_x)
  else if abs_y > abs_x ∧ abs_y > abs_z then
    if dir.y > 0 then
      (CubeFace.CF_TOP, dir.x / abs_y, dir.z / abs_y)
    else
      (CubeFace.CF_BOTTOM, dir.x / abs_y, -dir.z / abs_y)
  else
    if dir.z > 0 then
      (CubeFace.CF_FRONT, dir.x / abs_z, -dir.y / abs_z)
    else
      (CubeFace.CF_BACK, -dir.x / abs_z, -dir.y / abs_z)

/-- Truncation toward zero, the semantics of the C cast `(int)` from float. -/
def truncQ (q : ℚ) : ℤ :=
  if q < 0 then -(Int.floor (-q)) else Int.floor q

/-- Embeds the tail of `sample_cubemap` (lines 172-187): clamp u,v to
[-1,1], remap to [0,1], nearest-pixel lookup, linearize bytes by /255. -/
def sample_cubemap (c : Cubemap) (dir : Vec3) : Vec3 :=
  let fuv := cubemap_face_uv dir
  let u := clamp fuv.2.1 (-1) 1
  let v := clamp fuv.2.2 (-1) 1
  let u2 := (1/2 : ℚ) * (u + 1)
  let v2 := (1/2 : ℚ) * (v + 1)
  let px : ℤ := truncQ (u2 * ((c.w : ℚ) - 1))
  let py : ℤ := truncQ (v2 * ((c.h : ℚ) - 1))
  let base : ℕ := ((py * (c.w : ℤ) + px) * (c.chan : ℤ)).toNat
  ⟨(c.data fuv.1 base : ℚ) / 255,
   (c.data fuv.1 (base + 1) : ℚ) / 255,
   (c.data fuv.1 (base + 2) : ℚ) / 255⟩

/-- Embeds `MAX_OBJECTS`. -/
def MAX_OBJECTS : ℕ := 1024

/-- Embeds `add_object` (lines 511-515): the global array plus counter is
modelled as a list; the guard `num_objects < MAX_OBJECTS` makes the append a
silent no-op at capacity.  The C function returns `void`. -/
def add_object (objs : List Object) (o : Object) : List Object :=
  if objs.length < MAX_OBJECTS then objs ++ [o] else objs

/-- Embeds the per-worker initial coarseness computed in `main`
(lines 1137-1141): `init_scale = 1 << i; if (init_scale > 16) init_scale = 1;`. -/
def init_scale (i : ℕ) : ℤ :=
  if (2 : ℤ) ^ i > 16 then 1 else 2 ^ i

/-- Embeds the scales handed to the 16 worker threads spawned by `main`. -/
def worker_scales : List ℤ :=
  (List.range 16).map init_scale

/-- Shared accumulator state protected by `frame_mutex` (lines 684-691):
generation counter, frame dimensions, whether `accum` is allocated, and the
accumulated weight `accum_count`. -/
structure SharedAcc where
  gen : ℕ
  frame_w : ℕ
  frame_h : ℕ
  accum_alloc : Bool
  accum_count : ℚ
deriving DecidableEq

/-- Per-worker local state (lines 695-699): cached generation, cached
dimensions, whether `local_accum` is allocated, and the local weight. -/
structure WorkerLocal where
  gen : ℕ
  w : ℕ
  h : ℕ
  alloc : Bool
  count : ℚ
deriving DecidableEq

/-- Embeds the merge condition of the worker loop (line 709):
`accum != NULL && local_accum != NULL && local_accum_generation ==
accum_generation`.  No comparison of the cached dimensions with the shared
dimensions appears in the condition. -/
def worker_merge_gate (s : SharedAcc) (l : WorkerLocal) : Bool :=
  s.accum_alloc && l.alloc && (l.gen == s.gen)

/-- Embeds the state effects of the mutex-protected section of the worker
loop (lines 708-725) together with the reallocation that follows it (lines
727-739): merge the local weight when the gate passes, then refresh the
cached generation, dimensions and weight; a detected size change triggers a
fresh allocation of the local buffer.  The merge loop itself runs over
`frame_w * frame_h` entries of the local buffer, which only holds `w * h`
entries. -/
def worker_sync (s : SharedAcc) (l : WorkerLocal) : SharedAcc × WorkerLocal :=
  (if worker_merge_gate s l then { s with accum_count := s.accum_count + l.count } else s,
   { gen := s.gen, w := s.frame_w, h := s.frame_h,
     alloc := l.alloc || !(l.w == s.frame_w && l.h == s.frame_h), count := 0 })

/-- Embeds the resize branch of `update_frame_texture` (lines 788-802):
when the target dimensions differ, reallocate and zero `accum_count`.
The generation counter is not modified here. -/
def presenter_resize (s : SharedAcc) (W H : ℕ) : SharedAcc :=
  if s.frame_w ≠ W ∨ s.frame_h ≠ H then
    { gen := s.gen, frame_w := W, frame_h := H, accum_alloc := true, accum_count := 0 }
  else s

/-- Embeds `invalidate_accumulation` (lines 776-782): zero `accum_count`
and bump the generation. -/
def invalidate_accumulation (s : SharedAcc) : SharedAcc :=
  { s with accum_count := 0, gen := s.gen + 1 }

/-- Embeds the clipped tile width of the worker pass (lines 756-758):
`tile_w = scale; if (tile_w > local_frame_w - i*scale) tile_w = ...`.
All quantities are non-negative at run time, so ℕ is used. -/
def tile_clip (scl W i : ℕ) : ℕ :=
  min scl (W - i * scl)

/-- Embeds the set of `(real_i, real_j)` pixel coordinates splatted by one
worker pass at scale `scl` over a `W × H` local accumulator
(lines 749-769). -/
def splat_coords (scl W H : ℕ) : List (ℕ × ℕ) :=
  (List.range (H / scl)).flatMap (fun j =>
    (List.range (W / scl)).flatMap (fun i =>
      (List.range (tile_clip scl H j)).flatMap (fun g =>
        (List.range (tile_clip scl W i)).map (fun t =>
          (i * scl + t, j * scl + g)))))

/-- Embeds the flat index computation of line 766:
`pixel_index = real_j * frame_w + real_i` (note: the stride is the shared
`frame_w`, passed here as `fw`). -/
def splat_pixel_index (fw : ℕ) (p : ℕ × ℕ) : ℕ :=
  p.2 * fw + p.1

/-- Extended rationals modelling the values the box slab test can produce
under IEEE float semantics: finite values, the two signed infinities produced
by division of a nonzero numerator by zero, and NaN from `0 / 0`. -/
inductive XQ where
  | nan : XQ
  | ninf : XQ
  | fin : ℚ → XQ
  | pinf : XQ
deriving DecidableEq

/-- IEEE strict greater-than on extended values: any comparison involving
NaN is false. -/
def xgt : XQ → XQ → Bool
  | .nan, _ => false
  | _, .nan => false
  | .pinf, .pinf => false
  | .pinf, .ninf => true
  | .pinf, .fin _ => true
  | .ninf, _ => false
  | .fin _, .pinf => false
  | .fin _, .ninf => true
  | .fin a, .fin b => decide (a > b)

/-- IEEE strict less-than on extended values. -/
def xlt (a b : XQ) : Bool := xgt b a

/-- IEEE division of floats, for a finite numerator and denominator: a zero
denominator yields a signed infinity (or NaN for `0 / 0`); the single
rational zero is treated as `+0`. -/
def ieee_div (a b : ℚ) : XQ :=
  if b = 0 then (if 0 < a then .pinf else if a < 0 then .ninf else .nan)
  else .fin (a / b)

/-- Embeds one slab of `intersect_cube` (lines 340-354 and 362-368): the C
code branches on `direction >= 0` and divides, producing `(tmin, tmax)`. -/
def slab (lo hi o d : ℚ) : XQ × XQ :=
  if 0 ≤ d then (ieee_div (lo - o) d, ieee_div (hi - o) d)
  else (ieee_div (hi - o) d, ieee_div (lo - o) d)

/-- Embeds the normal chosen by `intersect_cube` (lines 378-384) for a hit
axis 0, 1 or 2: the axis-aligned unit vector opposing the ray direction's
sign on that axis. -/
def cube_normal (axis : ℕ) (d : Vec3) : Vec3 :=
  if axis = 0 then (if d.x > 0 then ⟨-1, 0, 0⟩ else ⟨1, 0, 0⟩)
  else if axis = 1 then (if d.y > 0 then ⟨0, -1, 0⟩ else ⟨0, 1, 0⟩)
  else (if d.z > 0 then ⟨0, 0, -1⟩ else ⟨0, 0, 1⟩)

/-- Embeds `intersect_cube` (lines 326-386), returning `tnear` and the
normal on a hit (`tfar` is requested as NULL by `intersect_object` and is
therefore dropped from the result; its running updates do not influence
`tnear` or the hit axis). -/
def intersect_cube (r : Ray) (c : Cube) : Option (XQ × Vec3) :=
  let a := c.origin
  let b := combine c.origin c.size 1 1
  let sx := slab a.x b.x r.origin.x r.direction.x
  let sy := slab a.y b.y r.origin.y r.direction.y
  if xgt sx.1 sy.2 || xgt sy.1 sx.2 then none
  else
    let tmin1 := if xgt sy.1 sx.1 then sy.1 else sx.1
    let ax1 : ℕ := if xgt sy.1 sx.1 then 1 else 0
    let tmax1 := if xlt sy.2 sx.2 then sy.2 else sx.2
    let sz := slab a.z b.z r.origin.z r.direction.z
    if xgt tmin1 sz.2 || xgt sz.1 tmax1 then none
    else
      let tmin2 := if xgt sz.1 tmin1 then sz.1 else tmin1
      let ax2 : ℕ := if xgt sz.1 tmin1 then 2 else ax1
      some (tmin2, cube_normal ax2 r.direction)

/-- Embeds `oc` of `intersect_sphere` (line 418): `center - origin`. -/
def sphOC (r : Ray) (s : Sphere) : Vec3 :=
  combine s.center r.origin 1 (-1)

/-- Embeds coefficient `a` of `intersect_sphere` (line 419). -/
def sphA (r : Ray) : ℚ := dotv r.direction r.direction

/-- Embeds coefficient `b` of `intersect_sphere` (line 420). -/
def sphB (r : Ray) (s : Sphere) : ℚ := -2 * dotv (sphOC r s) r.direction

/-- Embeds coefficient `c` of `intersect_sphere` (line 421). -/
def sphC (r : Ray) (s : Sphere) : ℚ :=
  dotv (sphOC r s) (sphOC r s) - s.radius * s.radius

/-- Embeds the discriminant of `intersect_sphere` (line 423). -/
def sphDiscr (r : Ray) (s : Sphere) : ℚ :=
  sphB r s * sphB r s - 4 * sphA r * sphC r s

/-- Embeds the root selection of `intersect_sphere` (lines 433-438), after
the swap has ordered the roots as `lo ≤ hi`: reject when both are negative,
otherwise return the smallest non-negative one. -/
def sph_pick (lo hi : ℚ) : Option ℚ :=
  if lo < 0 then (if hi < 0 then none else some hi) else some lo

/-- Embeds the swap of `intersect_sphere` (lines 428-432). -/
def sph_sort (s0 s1 : ℚ) : Option ℚ :=
  if s0 > s1 then sph_pick s1 s0 else sph_pick s0 s1

/-- Embeds the root `s0 = (-b + sqrt(discr)) / (2a)` of line 426, with the
square root supplied as `sq`. -/
def sphRootHi (r : Ray) (s : Sphere) (sq : ℚ) : ℚ :=
  (-(sphB r s) + sq) / (2 * sphA r)

/-- Embeds the root `s1 = (-b - sqrt(discr)) / (2a)` of line 427. -/
def sphRootLo (r : Ray) (s : Sphere) (sq : ℚ) : ℚ :=
  (-(sphB r s) - sq) / (2 * sphA r)

/-- Embeds `intersect_sphere` (lines 388-443).  The float `sqrt(discr)` of
line 426 is supplied as the oracle argument `sq`; theorems about this
function hypothesize `sq * sq = sphDiscr r s` and `0 ≤ sq`. -/
def intersect_sphere (r : Ray) (s : Sphere) (sq : ℚ) : Option ℚ :=
  if sphDiscr r s > 0 then
    sph_sort (sphRootHi r s sq) (sphRootLo r s sq)
  else none

/-- The hit point minus the sphere center (line 472-473), whose
normalization is the reported sphere normal. -/
def sphere_hit_diff (r : Ray) (s : Sphere) (t : ℚ) : Vec3 :=
  combine (combine r.origin r.direction 1 t) s.center 1 (-1)

/-- Embeds `intersect_object` (lines 462-480).  `sq` is the sphere
discriminant square root oracle; `nl` is the length oracle for the
`normalize` on the sphere normal (line 473). -/
def intersect_object (r : Ray) (o : Object) (sq nl : ℚ) : Option (XQ × Vec3) :=
  match o.geom with
  | .OCube c => intersect_cube r c
  | .OSphere s =>
    (intersect_sphere r s sq).map (fun t => (.fin t, normalize (sphere_hit_diff r s t) nl))

/-- Embeds `FLT_MAX`, the exact value `(2 - 2^-23) * 2^127`. -/
def FLT_MAX : ℚ := 2 ^ 128 - 2 ^ 104

/-- Embeds the acceptance test of `trace_ray` (line 536):
`t >= 0 && t < nearest_t` under IEEE comparison semantics.  The running
`nearest_t` is always finite (it starts at `FLT_MAX` and is only replaced by
accepted values), so it is kept as a rational. -/
def xsel (t : XQ) (cur : ℚ) : Option ℚ :=
  match t with
  | .fin q => if 0 ≤ q ∧ q < cur then some q else none
  | _ => none

/-- Embeds `HitInfo`. -/
structure HitInfo where
  distance : ℚ
  point : Vec3
  normal : Vec3
  object : ℤ
deriving DecidableEq

/-- Embeds the object loop of `trace_ray` (lines 531-541): fold over the
scene keeping the nearest accepted `(t, index, normal)`.  The oracles `sq`
and `nl` give, per object index, the square roots used by
`intersect_object`. -/
def trace_go (r : Ray) (sq nl : ℕ → ℚ) :
    List Object → ℕ → ℚ × ℤ × Vec3 → ℚ × ℤ × Vec3
  | [], _, st => st
  | o :: rest, i, st =>
    let st' :=
      match intersect_object r o (sq i) (nl i) with
      | none => st
      | some (t, n) =>
        match xsel t st.1 with
        | some q => (q, (i : ℤ), n)
        | none => st
    trace_go r sq nl rest (i + 1) st'

/-- Embeds `trace_ray` (lines 524-558).  The entry normalization of the
direction (line 526) uses the length oracle `dlen`. -/
def trace_ray (scene : List Object) (r0 : Ray) (dlen : ℚ) (sq nl : ℕ → ℚ) : HitInfo :=
  let dir := normalize r0.direction dlen
  let r : Ray := ⟨r0.origin, dir⟩
  let st := trace_go r sq nl scene 0 (FLT_MAX, -1, ⟨0, 0, 0⟩)
  if st.2.1 = -1 then ⟨-1, ⟨0, 0, 0⟩, ⟨0, 0, 0⟩, -1⟩
  else ⟨st.1, combine r.origin dir 1 st.1, st.2.2, st.2.1⟩

/-- Oracle bundle for one `trace_ray` call: the direction length and the
per-object square-root oracles. -/
structure TraceO where
  dlen : ℚ
  sq : ℕ → ℚ
  nl : ℕ → ℚ

/-- Default material (all fields zero), used only as the out-of-range
fallback of list indexing; `trace_ray` always reports in-range indices. -/
def defaultMaterial : Material :=
  ⟨⟨0, 0, 0⟩, 0, 0, 0, 0, ⟨0, 0, 0⟩⟩

/-- Default object for the out-of-range fallback of list indexing. -/
def defaultObject : Object :=
  ⟨.OSphere ⟨⟨0, 0, 0⟩, 0⟩, defaultMaterial⟩

/-- Embeds the C array access `objects[i]`. -/
def objGet (l : List Object) (i : ℤ) : Object :=
  l.getD i.toNat defaultObject

/-- Embeds the hemisphere mirroring applied to random directions (lines
622-623 and 651-652): flip the vector when it points against the normal. -/
def mirror_into_hemisphere (rand_dir n : Vec3) : Vec3 :=
  if dotv rand_dir n < 0 then scale rand_dir (-1) else rand_dir

/-- Embeds one shadow sample of the direct-light loop (lines 621-628):
jitter toward the light with spread 0.5, offset the ray origin by 0.001
along the sample direction, trace, and on any hit return that object's
`emission_color * emission_power` (a miss contributes zero).  `slen` is the
length oracle for the `normalize` of line 624 and `tor` the trace oracle. -/
def shadow_sample (scene : List Object) (hp hn dtl rand_dir : Vec3)
    (slen : ℚ) (tor : TraceO) : Vec3 :=
  let rd := mirror_into_hemisphere rand_dir hn
  let sample_dir := normalize (combine rd dtl (1/2) 1) slen
  let sray : Ray := ⟨combine hp sample_dir 1 (1/1000), sample_dir⟩
  let h2 := trace_ray scene sray tor.dlen tor.sq tor.nl
  if h2.object ≠ -1 then
    scale (objGet scene h2.object).material.emission_color
      (objGet scene h2.object).material.emission_power
  else ⟨0, 0, 0⟩

/-- Embeds the inner `for (k = 0; k < samples; k++)` accumulation (lines
619-629): the sum of `k` shadow samples, drawing random directions
`rd (ridx), rd (ridx+1), ...`. -/
def shadow_sum (scene : List Object) (hp hn dtl : Vec3) (rd : ℕ → Vec3)
    (ridx : ℕ) (slen : ℕ → ℚ) (tors : ℕ → TraceO) : ℕ → Vec3
  | 0 => ⟨0, 0, 0⟩
  | k + 1 =>
    combine (shadow_sum scene hp hn dtl rd ridx slen tors k)
      (shadow_sample scene hp hn dtl (rd (ridx + k)) (slen k) (tors k)) 1 1

/-- Embeds the emissive-object scan of the direct-light loop (lines
612-632): skip objects with zero `emission_power` or equal to the hit
object; at the first qualifying object take 5 shadow samples, divide by 5
and `break`.  Returns the sampled light and the updated random-direction
index (5 consumed when an emitter was found, otherwise none). -/
def sampled_light_go (allObjs : List Object) (hitObj : ℤ) (hp hn : Vec3)
    (rd : ℕ → Vec3) (slen : ℕ → ℚ) (tors : ℕ → TraceO) :
    List Object → ℕ → ℕ → Vec3 × ℕ
  | [], _, ridx => (⟨0, 0, 0⟩, ridx)
  | o :: rest, j, ridx =>
    if o.material.emission_power = 0 ∨ (j : ℤ) = hitObj then
      sampled_light_go allObjs hitObj hp hn rd slen tors rest (j + 1) ridx
    else
      (scale (shadow_sum allObjs hp hn (combine (origin_of o) hp 1 (-1))
          rd ridx slen tors 5) (1/5),
       ridx + 5)

/-- Embeds the whole direct-light estimate of one bounce (lines 612-632),
scanning the scene from index 0. -/
def sampled_light (allObjs : List Object) (hitObj : ℤ) (hp hn : Vec3)
    (rd : ℕ → Vec3) (ridx : ℕ) (slen : ℕ → ℚ) (tors : ℕ → TraceO) : Vec3 × ℕ :=
  sampled_light_go allObjs hitObj hp hn rd slen tors allObjs 0 ridx

/-- Stated from the claim: the first object in scan order whose
`emission_power` is nonzero and whose index differs from the hit object. -/
def firstEmissive_go (hitObj : ℤ) : List Object → ℕ → Option (ℕ × Object)
  | [], _ => none
  | o :: rest, j =>
    if o.material.emission_power ≠ 0 ∧ (j : ℤ) ≠ hitObj then some (j, o)
    else firstEmissive_go hitObj rest (j + 1)

/-- Stated from the claim: scan from index 0. -/
def firstEmissive (scene : List Object) (hitObj : ℤ) : Option (ℕ × Object) :=
  firstEmissive_go hitObj scene 0

/-- Stated from the claim: the direct-light estimate processes only the
first emissive object other than the hit object; 5 shadow samples toward it
are averaged, and no emitter found yields zero. -/
def sampled_light_spec (allObjs : List Object) (hitObj : ℤ) (hp hn : Vec3)
    (rd : ℕ → Vec3) (ridx : ℕ) (slen : ℕ → ℚ) (tors : ℕ → TraceO) : Vec3 × ℕ :=
  match firstEmissive allObjs hitObj with
  | none => (⟨0, 0, 0⟩, ridx)
  | some (_, o) =>
    (scale (shadow_sum allObjs hp hn (combine (origin_of o) hp 1 (-1))
        rd ridx slen tors 5) (1/5),
     ridx + 5)

/-- Oracle bundle for one bounce of `pixel`: the primary trace, the shadow
sample normalizations and traces, and the out-direction normalization. -/
structure BounceO where
  prim : TraceO
  slen : ℕ → ℚ
  shadow : ℕ → TraceO
  outLen : ℚ

/-- Environment of `pixel`: the immutable scene and skybox, the external
camera collaborator `ray_through_screen_at`, the random streams (results of
`random_direction` and `random_float`), and the per-bounce oracles. -/
structure PEnv where
  scene : List Object
  skybox : Cubemap
  rts : ℚ → ℚ → ℚ → Ray
  rd : ℕ → Vec3
  rf : ℕ → ℚ
  bo : ℕ → BounceO

/-- Loop state of `pixel` (lines 601-675): current ray, throughput
`contrib`, accumulated `result`, whether the loop has broken out, and the
positions in the two random streams. -/
structure PState where
  in_ray : Ray
  contrib : Vec3
  result : Vec3
  done : Bool
  rdi : ℕ
  rfi : ℕ

/-- Embeds one iteration of the bounce loop of `pixel` (lines 603-675).
A `break` (ray escaped to the skybox) is modelled by the `done` flag, on
which the step is the identity.  The specular test of line 657 short-
circuits: `random_float` is consumed only when `metallic <= 0.001`. -/
def bounce (env : PEnv) (i : ℕ) (st : PState) : PState :=
  if st.done then st
  else
    let ors := env.bo i
    let hit := trace_ray env.scene st.in_ray ors.prim.dlen ors.prim.sq ors.prim.nl
    if hit.object = -1 then
      { st with
        result := combine st.result
          (mulv (sample_cubemap env.skybox (normalize st.in_ray.direction ors.prim.dlen))
            st.contrib) 1 1,
        done := true }
    else
      let slcp := sampled_light env.scene hit.object hit.point hit.normal
        env.rd st.rdi ors.slen ors.shadow
      let slc := slcp.1
      let material := (objGet env.scene hit.object).material
      let v := scale st.in_ray.direction (-1)
      let NoV := clamp (dotv hit.normal v) 0 1
      let f0_dielectric := vec_from_scalar ((16/100) * material.reflectance * material.reflectance)
      let f0 := combine f0_dielectric material.albedo (1 - material.metallic) material.metallic
      let F := fresnelSchlick NoV f0
      let rand_dir := mirror_into_hemisphere (env.rd slcp.2) hit.normal
      let result1 := combine st.result
        (mulv (scale material.emission_color material.emission_power) st.contrib) 1 1
      let spec1 : Bool := decide (material.metallic > 1/1000)
      let isSpec : Bool := spec1 || decide (env.rf st.rfi ≤ avgv F)
      let rfi1 := if spec1 then st.rfi else st.rfi + 1
      let out_dir :=
        if isSpec then
          normalize (combine rand_dir (reflect st.in_ray.direction (scale hit.normal (-1)))
            material.roughness 1) ors.outLen
        else rand_dir
      let contrib1 :=
        if isSpec then st.contrib
        else mulv st.contrib (scale material.albedo (1 - material.metallic))
      let out_ray : Ray := ⟨combine hit.point out_dir 1 (1/1000), out_dir⟩
      let result2 :=
        if iszerov slc then result1 else combine result1 (mulv slc contrib1) 1 (5/100)
      let contrib2 :=
        if iszerov slc then contrib1 else scale contrib1 (1 - 5/100)
      { in_ray := out_ray, contrib := contrib2, result := result2, done := false,
        rdi := slcp.2 + 1, rfi := rfi1 }

/-- Embeds the state of `pixel` after `k` iterations of the bounce loop,
starting from the primary camera ray with `contrib = (1,1,1)` and
`result = (0,0,0)` (lines 594-601). -/
def run_bounces (env : PEnv) (x y aspect : ℚ) : ℕ → PState
  | 0 => ⟨env.rts x y aspect, ⟨1, 1, 1⟩, ⟨0, 0, 0⟩, false, 0, 0⟩
  | k + 1 => bounce env k (run_bounces env x y aspect k)

/-- Embeds `pixel` (lines 590-682, the spec's `sample_pixel`): run 5
bounces, then componentwise clamp the result to [0,1]. -/
def pixel (env : PEnv) (x y aspect : ℚ) : Vec3 :=
  let st := run_bounces env x y aspect 5
  ⟨clamp st.result.x 0 1, clamp st.result.y 0 1, clamp st.result.z 0 1⟩

/-- Material ranges assumed by the spec's data model: albedo in [0,1]^3 and
metallic in [0,1]. -/
def materialOK (m : Material) : Prop :=
  0 ≤ m.albedo.x ∧ m.albedo.x ≤ 1 ∧ 0 ≤ m.albedo.y ∧ m.albedo.y ≤ 1 ∧
  0 ≤ m.albedo.z ∧ m.albedo.z ≤ 1 ∧ 0 ≤ m.metallic ∧ m.metallic ≤ 1

instance (m : Material) : Decidable (materialOK m) := by
  unfold materialOK; infer_instance

/-- Componentwise membership in [0,1]. -/
def inUnit (v : Vec3) : Prop :=
  0 ≤ v.x ∧ v.x ≤ 1 ∧ 0 ≤ v.y ∧ v.y ≤ 1 ∧ 0 ≤ v.z ∧ v.z ≤ 1

instance (v : Vec3) : Decidable (inUnit v) := by
  unfold inUnit; infer_instance

/-- Componentwise order on vectors. -/
def vle (a b : Vec3) : Prop :=
  a.x ≤ b.x ∧ a.y ≤ b.y ∧ a.z ≤ b.z

instance (a b : Vec3) : Decidable (vle a b) := by
  unfold vle; infer_instance

/-- Concrete trace oracle whose values are exact for the witness scenes
below (unit directions; the only sphere discriminants that arise are
perfect squares). -/
def torUnit : TraceO := ⟨1, fun _ => 2, fun _ => 1⟩

/-- Concrete bounce oracle for witnesses. -/
def boUnit : BounceO := ⟨torUnit, fun _ => 1, fun _ => torUnit, 1⟩

/-- Concrete all-white 1x1 3-channel cubemap for witnesses. -/
def cmWhite : Cubemap := ⟨fun _ _ => 255, 1, 1, 3⟩

/-- Concrete camera collaborator for witnesses: every screen point yields
the ray from the origin along +Z. -/
def rtsZ : ℚ → ℚ → ℚ → Ray := fun _ _ _ => ⟨⟨0, 0, 0⟩, ⟨0, 0, 1⟩⟩

/-- Concrete pixel environment with an empty scene, for witnesses. -/
def envEmpty : PEnv :=
  ⟨[], cmWhite, rtsZ, fun _ => ⟨1, 0, 0⟩, fun _ => 0, fun _ => boUnit⟩

/-- Concrete ray from the origin along +X, used by witnesses and
counterexamples. -/
def rayX : Ray := ⟨⟨0, 0, 0⟩, ⟨1, 0, 0⟩⟩

/-- Concrete sphere tangent to `rayX` at the origin: center (0,1,0),
radius 1.  Its discriminant along `rayX` is exactly zero. -/
def sphTangent : Sphere := ⟨⟨0, 1, 0⟩, 1⟩

/-- Concrete sphere centered at (3,0,0) with radius 1, strictly outside the
origin of `rayX`. -/
def sphOutside : Sphere := ⟨⟨3, 0, 0⟩, 1⟩

/-- Concrete unit sphere centered at the origin of `rayX` (the ray starts
at its center). -/
def sphAround : Sphere := ⟨⟨0, 0, 0⟩, 1⟩

/-- One-object scene containing `sphOutside`, with a diffuse gray material. -/
def sceneOutside : List Object :=
  [⟨.OSphere sphOutside, ⟨⟨1/2, 1/2, 1/2⟩, 1, 0, 0, 0, ⟨0, 0, 0⟩⟩⟩]

/-- One-object scene containing `sphAround`. -/
def sceneAround : List Object :=
  [⟨.OSphere sphAround, ⟨⟨1/2, 1/2, 1/2⟩, 1, 0, 0, 0, ⟨0, 0, 0⟩⟩⟩]

/-- A full scene store: 1024 copies of the default object. -/
def fullStore : List Object :=
  List.replicate MAX_OBJECTS defaultObject

/-- C1: the claim fails on the code and the spec is the intent.  After the
presenter resizes the frame buffers (2x2 to 4x4) without the generation
changing (`presenter_resize` leaves `gen` untouched), a worker whose local
buffer was produced for the old 2x2 dimensions still passes the merge gate,
because the gate (line 709) compares only generations; its stale weight is
merged into the fresh accumulator, and the merge loop bound
`frame_w * frame_h = 16` exceeds the 4 cells of the local buffer. -/
theorem C1_stale_size_merge :
    (presenter_resize ⟨0, 2, 2, true, 1⟩ 4 4).gen = 0 ∧
    worker_merge_gate (presenter_resize ⟨0, 2, 2, true, 1⟩ 4 4) ⟨0, 2, 2, true, 1/4⟩ = true ∧
    (2 : ℕ) ≠ (presenter_resize ⟨0, 2, 2, true, 1⟩ 4 4).frame_w ∧
    (worker_sync (presenter_resize ⟨0, 2, 2, true, 1⟩ 4 4) ⟨0, 2, 2, true, 1/4⟩).1.accum_count = 1/4 ∧
    2 * 2 < (presenter_resize ⟨0, 2, 2, true, 1⟩ 4 4).frame_w *
            (presenter_resize ⟨0, 2, 2, true, 1⟩ 4 4).frame_h := by
  refine ⟨rfl, rfl, by decide, ?_, by decide⟩
  show (0 : ℚ) + 1/4 = 1/4
  norm_num

/-- C2: the claim is false at worker 5.  The code (lines 1138-1140) resets
scales exceeding 16 to 1, not to 16: worker 5 receives scale 1 while
`min(2^5, 16) = 16`. -/
theorem C2_counterexample :
    init_scale 5 = 1 ∧ min ((2 : ℤ) ^ 5) 16 = 16 ∧ (1 : ℤ) ≠ 16 := by
  decide

/-- C2 amended: 16 workers are spawned and worker i receives scale 2^i when
2^i <= 16, and scale 1 (full resolution) otherwise, so the scales are
1, 2, 4, 8, 16 for workers 0-4 and 1 for workers 5-15. -/
theorem C2_amended :
    worker_scales = [1, 2, 4, 8, 16, 1, 1, 1, 1, 1, 1, 1, 1, 1, 1, 1] ∧
    worker_scales.length = 16 := by
  decide

/-- C4: the claim is false: appending to a store already holding 1024
objects returns normally with the store unchanged — there is no abort, no
diagnostic, and `add_object` (lines 511-515) returns no index (it is
`void`). -/
theorem C4_counterexample :
    fullStore.length = MAX_OBJECTS ∧
    add_object fullStore defaultObject = fullStore := by
  constructor
  · simp [fullStore]
  · simp [add_object, fullStore]

/-- C4 amended: appending when the store already holds 1024 objects is a
silent no-op (the object is discarded and the store is unchanged; nothing is
returned); an append below capacity places the object at the index equal to
the previous count and grows the count by one. -/
theorem C4_amended (objs : List Object) (o : Object) (h : objs.length < MAX_OBJECTS) :
    add_object objs o = objs ++ [o] ∧
    (add_object objs o).length = objs.length + 1 ∧
    (add_object objs o).get? objs.length = some o := by
  unfold add_object
  rw [if_pos h]
  refine ⟨rfl, by simp, ?_⟩
  rw [List.get?_append_right (le_refl _)]
  simp

/-- C4 witness: the amended theorem at the empty store. -/
theorem C4_witness :
    ([] : List Object).length < MAX_OBJECTS ∧
    (add_object [] defaultObject).get? 0 = some defaultObject :=
  ⟨by decide, (C4_amended [] defaultObject (by decide)).2.2⟩

/-- C9: in every worker pass at scale `scl` over a `W x H` local
accumulator, each splatted coordinate satisfies `real_i < W` and
`real_j < H`, and the flat index `real_j * frame_w + real_i` stays below
`W * H` (the stride `frame_w` equals the local width `W`, which the worker
establishes under the mutex right before the pass; the model is
sequential). -/
theorem C9_splat_bounds (scl W H fw : ℕ) (hscl : 1 ≤ scl) (hfw : fw = W) :
    ∀ p ∈ splat_coords scl W H,
      p.1 < W ∧ p.2 < H ∧ splat_pixel_index fw p < W * H := by
  intro p hp
  simp only [splat_coords, List.mem_flatMap, List.mem_map, List.mem_range] at hp
  obtain ⟨j, hj, i, hi, g, hg, t, ht, hp⟩ := hp
  subst hp
  unfold tile_clip at hg ht
  have h1 : i * scl + t < W := by
    have := lt_min_iff.mp ht
    omega
  have h2 : j * scl + g < H := by
    have := lt_min_iff.mp hg
    omega
  refine ⟨h1, h2, ?_⟩
  rw [hfw]
  unfold splat_pixel_index
  calc (j * scl + g) * W + (i * scl + t)
      < (j * scl + g) * W + W := by omega
    _ = (j * scl + g + 1) * W := by ring
    _ ≤ H * W := Nat.mul_le_mul_right W h2
    _ = W * H := Nat.mul_comm H W

/-- C9 witness: the bounds theorem at scale 16 on a 100 x 60 buffer. -/
theorem C9_witness :
    (1 : ℕ) ≤ 16 ∧
    ∀ p ∈ splat_coords 16 100 60,
      p.1 < 100 ∧ p.2 < 60 ∧ splat_pixel_index 100 p < 100 * 60 :=
  ⟨by decide, C9_splat_bounds 16 100 60 100 (by decide) rfl⟩

/-- C10: for every direction in which no component's absolute value strictly
exceeds both of the others, the face selection of `sample_cubemap` falls
through to the Z pair: the front face when z > 0 and the back face
otherwise. -/
theorem C10_zface (d : Vec3)
    (h1 : ¬(absf d.x > absf d.y ∧ absf d.x > absf d.z))
    (h2 : ¬(absf d.y > absf d.x ∧ absf d.y > absf d.z))
    (h3 : ¬(absf d.z > absf d.x ∧ absf d.z > absf d.y)) :
    (cubemap_face_uv d).1 =
      if d.z > 0 then CubeFace.CF_FRONT else CubeFace.CF_BACK := by
  simp only [cubemap_face_uv]
  rw [if_neg h1, if_neg h2]
  by_cases hz : d.z > 0
  · rw [if_pos hz, if_pos hz]
  · rw [if_neg hz, if_neg hz]

/-- The quadratic coefficient `a = dot(D, D)` is a sum of squares. -/
theorem sphA_nonneg (r : Ray) : 0 ≤ sphA r := by
  unfold sphA dotv
  nlinarith [mul_self_nonneg r.direction.x, mul_self_nonneg r.direction.y,
    mul_self_nonneg r.direction.z]

/-- A positive discriminant forces `a > 0`: a zero direction makes both `a`
and `b` vanish, hence the discriminant too. -/
theorem sphA_pos_of_discr_pos (r : Ray) (s : Sphere) (h : 0 < sphDiscr r s) :
    0 < sphA r := by
  rcases lt_or_eq_of_le (sphA_nonneg r) with hp | hz
  · exact hp
  · exfalso
    have hA : r.direction.x * r.direction.x + r.direction.y * r.direction.y +
        r.direction.z * r.direction.z = 0 := by
      have := hz.symm
      unfold sphA dotv at this
      linarith
    have hx : r.direction.x = 0 := by
      nlinarith [mul_self_nonneg r.direction.x, mul_self_nonneg r.direction.y,
        mul_self_nonneg r.direction.z]
    have hy : r.direction.y = 0 := by
      nlinarith [mul_self_nonneg r.direction.x, mul_self_nonneg r.direction.y,
        mul_self_nonneg r.direction.z]
    have hzc : r.direction.z = 0 := by
      nlinarith [mul_self_nonneg r.direction.x, mul_self_nonneg r.direction.y,
        mul_self_nonneg r.direction.z]
    have hB : sphB r s = 0 := by
      unfold sphB dotv
      rw [hx, hy, hzc]
      ring
    have hD : sphDiscr r s = 0 := by
      unfold sphDiscr
      rw [hB]
      unfold sphA dotv
      rw [hx, hy, hzc]
      ring
    rw [hD] at h
    exact lt_irrefl 0 h

/-- With the roots ordered, `intersect_sphere` on a positive discriminant is
the pick of the smallest non-negative root. -/
theorem intersect_sphere_eq_pick (r : Ray) (s : Sphere) (sq : ℚ)
    (hd : sphDiscr r s > 0) (hsq0 : 0 ≤ sq) :
    intersect_sphere r s sq = sph_pick (sphRootLo r s sq) (sphRootHi r s sq) := by
  have hA : 0 < sphA r := sphA_pos_of_discr_pos r s hd
  have hm_le_p : sphRootLo r s sq ≤ sphRootHi r s sq := by
    unfold sphRootLo sphRootHi
    exact (div_le_div_right (by linarith)).mpr (by linarith)
  unfold intersect_sphere sph_sort
  rw [if_pos hd]
  split_ifs with hgt
  · rfl
  · have heq : sphRootHi r s sq = sphRootLo r s sq := le_antisymm (not_lt.mp hgt) hm_le_p
    rw [heq]

/-- The two ordered roots multiply to `c / a` when `sq` is an exact square
root of the discriminant. -/
theorem sphRoot_mul (r : Ray) (s : Sphere) (sq : ℚ)
    (hsq : sq * sq = sphDiscr r s) (hA : 0 < sphA r) :
    sphRootLo r s sq * sphRootHi r s sq = sphC r s / sphA r := by
  unfold sphRootLo sphRootHi
  have hA' : sphA r ≠ 0 := ne_of_gt hA
  field_simp
  have hd : sphDiscr r s = sphB r s * sphB r s - 4 * sphA r * sphC r s := rfl
  nlinarith [hsq, hd]

/-- Undoing a normalization by the (nonzero) length oracle restores the
vector. -/
theorem scale_normalize (w : Vec3) (k : ℚ) (hk : k ≠ 0) :
    scale (normalize w k) k = w := by
  unfold normalize scale
  obtain ⟨a, b, c⟩ := w
  simp only [Vec3.mk.injEq]
  refine ⟨?_, ?_, ?_⟩ <;> field_simp

/-- A vector normalized by the exact length oracle has unit dot square. -/
theorem dotv_normalize_self (w : Vec3) (k : ℚ) (hk : k ≠ 0)
    (h : k * k = dotv w w) :
    dotv (normalize w k) (normalize w k) = 1 := by
  unfold normalize scale dotv at *
  field_simp
  nlinarith [h]

/-- C3: the claim is false at a tangent ray.  For the ray from the origin
along +X and the unit sphere centered at (0,1,0) the discriminant is exactly
zero (so not negative) and the root 0 is non-negative, yet the code's strict
test `discr > 0` (line 425) reports a miss. -/
theorem C3_counterexample :
    sphDiscr rayX sphTangent = 0 ∧
    (0 : ℚ) * 0 = sphDiscr rayX sphTangent ∧
    sphRootHi rayX sphTangent 0 = 0 ∧
    intersect_sphere rayX sphTangent 0 = none := by
  have hD : sphDiscr rayX sphTangent = 0 := by
    norm_num [sphDiscr, sphB, sphA, sphC, sphOC, dotv, combine, rayX, sphTangent]
  refine ⟨hD, by rw [hD]; norm_num, ?_, ?_⟩
  · norm_num [sphRootHi, sphB, sphA, sphOC, dotv, combine, rayX, sphTangent]
  · unfold intersect_sphere
    rw [hD]
    norm_num

/-- C3 amended: with an exact non-negative square-root oracle,
`intersect_sphere` misses exactly when the discriminant is non-positive or
the larger root is negative; a reported hit carries the smallest
non-negative root; and the sphere normal reported through `intersect_object`
is the unit vector from the center to the hit point (with the exact length
oracle). -/
theorem C3_amended (r : Ray) (s : Sphere) (sq nl : ℚ)
    (hsq : sq * sq = sphDiscr r s) (hsq0 : 0 ≤ sq) :
    (intersect_sphere r s sq = none ↔
      sphDiscr r s ≤ 0 ∨ sphRootHi r s sq < 0) ∧
    (∀ t, intersect_sphere r s sq = some t →
      0 < sphDiscr r s ∧ 0 ≤ t ∧
      (t = sphRootLo r s sq ∨ t = sphRootHi r s sq) ∧
      (0 ≤ sphRootLo r s sq → t ≤ sphRootLo r s sq) ∧
      (0 ≤ sphRootHi r s sq → t ≤ sphRootHi r s sq)) ∧
    (∀ o t n, o.geom = ObjectGeom.OSphere s →
      intersect_object r o sq nl = some (XQ.fin t, n) →
      nl * nl = dotv (sphere_hit_diff r s t) (sphere_hit_diff r s t) →
      0 < nl →
      scale n nl = sphere_hit_diff r s t ∧ dotv n n = 1) := by
  refine ⟨?_, ?_, ?_⟩
  · by_cases hd : sphDiscr r s > 0
    · have hA : 0 < sphA r := sphA_pos_of_discr_pos r s hd
      have hle : sphRootLo r s sq ≤ sphRootHi r s sq := by
        unfold sphRootLo sphRootHi
        exact (div_le_div_right (by linarith)).mpr (by linarith)
      rw [intersect_sphere_eq_pick r s sq hd hsq0]
      unfold sph_pick
      split_ifs with h1 h2
      · exact iff_of_true rfl (Or.inr h2)
      · exact iff_of_false (by simp) (by push_neg; exact ⟨hd, le_of_not_lt h2⟩)
      · exact iff_of_false (by simp)
          (by push_neg; exact ⟨hd, le_trans (le_of_not_lt h1) hle⟩)
    · have hnone : intersect_sphere r s sq = none := by
        unfold intersect_sphere
        rw [if_neg hd]
      rw [hnone]
      exact iff_of_true rfl (Or.inl (le_of_not_lt hd))
  · intro t ht
    by_cases hd : sphDiscr r s > 0
    · have hA : 0 < sphA r := sphA_pos_of_discr_pos r s hd
      have hle : sphRootLo r s sq ≤ sphRootHi r s sq := by
        unfold sphRootLo sphRootHi
        exact (div_le_div_right (by linarith)).mpr (by linarith)
      rw [intersect_sphere_eq_pick r s sq hd hsq0] at ht
      unfold sph_pick at ht
      by_cases h1 : sphRootLo r s sq < 0
      · rw [if_pos h1] at ht
        by_cases h2 : sphRootHi r s sq < 0
        · rw [if_pos h2] at ht
          exact absurd ht (by simp)
        · rw [if_neg h2] at ht
          have htt : t = sphRootHi r s sq := (Option.some.inj ht).symm
          refine ⟨hd, by rw [htt]; exact le_of_not_lt h2, Or.inr htt, ?_, ?_⟩
          · intro hlo0; linarith
          · intro _; rw [htt]
      · rw [if_neg h1] at ht
        have htt : t = sphRootLo r s sq := (Option.some.inj ht).symm
        refine ⟨hd, by rw [htt]; exact le_of_not_lt h1, Or.inl htt, ?_, ?_⟩
        · intro _; rw [htt]
        · intro _; rw [htt]; exact hle
    · unfold intersect_sphere at ht
      rw [if_neg hd] at ht
      exact absurd ht (by simp)
  · intro o t n hg ho hnl2 hnl0
    obtain ⟨g, m⟩ := o
    have hg' : g = ObjectGeom.OSphere s := hg
    subst hg'
    simp only [intersect_object] at ho
    cases hi : intersect_sphere r s sq with
    | none =>
      rw [hi] at ho
      exact absurd ho (by simp)
    | some t' =>
      rw [hi, Option.map_some'] at ho
      simp only [Option.some.injEq, Prod.mk.injEq, XQ.fin.injEq] at ho
      obtain ⟨hts, hn⟩ := ho
      subst hts
      subst hn
      have hnl' : nl ≠ 0 := ne_of_gt hnl0
      exact ⟨scale_normalize _ nl hnl', dotv_normalize_self _ nl hnl' hnl2⟩

/-- C3 witness: the amended theorem at the ray along +X against the sphere
centered at (3,0,0) of radius 1, whose discriminant is the perfect square 4. -/
theorem C3_witness :
    ((2 : ℚ) * 2 = sphDiscr rayX sphOutside ∧ (0 : ℚ) ≤ 2) ∧
    (intersect_sphere rayX sphOutside 2 = none ↔
      sphDiscr rayX sphOutside ≤ 0 ∨ sphRootHi rayX sphOutside 2 < 0) :=
  ⟨⟨by norm_num [sphDiscr, sphB, sphA, sphC, sphOC, dotv, combine, rayX, sphOutside],
    by norm_num⟩,
   (C3_amended rayX sphOutside 2 1
     (by norm_num [sphDiscr, sphB, sphA, sphC, sphOC, dotv, combine, rayX, sphOutside])
     (by norm_num)).1⟩

/-- Any normal reported by `intersect_cube` is one of the six axis normals
chosen against the ray direction. -/
theorem cube_hit_normal_shape (r : Ray) (c : Cube) (t : XQ) (n : Vec3)
    (h : intersect_cube r c = some (t, n)) :
    ∃ ax, n = cube_normal ax r.direction := by
  simp only [intersect_cube] at h
  split_ifs at h
  all_goals simp only [Option.some.injEq, Prod.mk.injEq, reduceCtorEq] at h
  all_goals exact ⟨_, h.2.symm⟩

/-- Every axis normal opposes the ray direction: its dot with the direction
is non-positive. -/
theorem cube_normal_dot (ax : ℕ) (d : Vec3) : dotv (cube_normal ax d) d ≤ 0 := by
  unfold cube_normal
  split_ifs <;> (unfold dotv; simp) <;> linarith

/-- When the ray origin is strictly outside the sphere (`c > 0`), a reported
hit is the smaller root, which is then non-negative. -/
theorem intersect_sphere_root_lo (r : Ray) (s : Sphere) (sq t : ℚ)
    (h : intersect_sphere r s sq = some t)
    (hsq : sq * sq = sphDiscr r s) (hsq0 : 0 ≤ sq) (hc : 0 < sphC r s) :
    t = sphRootLo r s sq ∧ 0 ≤ t ∧ 0 < sphDiscr r s := by
  have hd : sphDiscr r s > 0 := by
    by_contra hd
    unfold intersect_sphere at h
    rw [if_neg hd] at h
    exact absurd h (by simp)
  have hA : 0 < sphA r := sphA_pos_of_discr_pos r s hd
  have hmul : sphRootLo r s sq * sphRootHi r s sq = sphC r s / sphA r :=
    sphRoot_mul r s sq hsq hA
  have hpos : 0 < sphRootLo r s sq * sphRootHi r s sq := by
    rw [hmul]
    exact div_pos hc hA
  rw [intersect_sphere_eq_pick r s sq hd hsq0] at h
  unfold sph_pick at h
  by_cases h1 : sphRootLo r s sq < 0
  · exfalso
    have hhi : sphRootHi r s sq < 0 := by nlinarith
    rw [if_pos h1, if_pos hhi] at h
    exact absurd h (by simp)
  · rw [if_neg h1] at h
    have htt : t = sphRootLo r s sq := (Option.some.inj h).symm
    exact ⟨htt, by rw [htt]; exact le_of_not_lt h1, hd⟩

/-- The unnormalized sphere normal dotted with the ray direction is
`t * a + b / 2`. -/
theorem sphere_hit_diff_dot (r : Ray) (s : Sphere) (t : ℚ) :
    dotv (sphere_hit_diff r s t) r.direction = t * sphA r + sphB r s / 2 := by
  unfold sphere_hit_diff sphA sphB sphOC dotv combine
  ring

/-- The normal reported for a sphere hit from a strictly exterior origin
opposes the (pre-normalized) ray direction. -/
theorem intersect_sphere_dot_le (r : Ray) (s : Sphere) (sq nl t : ℚ)
    (h : intersect_sphere r s sq = some t)
    (hsq : sq * sq = sphDiscr r s) (hsq0 : 0 ≤ sq) (hc : 0 < sphC r s)
    (hnl : 0 ≤ nl) :
    dotv (normalize (sphere_hit_diff r s t) nl) r.direction ≤ 0 := by
  obtain ⟨hlo, hts, hd⟩ := intersect_sphere_root_lo r s sq t h hsq hsq0 hc
  have hA : 0 < sphA r := sphA_pos_of_discr_pos r s hd
  have hdot : dotv (sphere_hit_diff r s t) r.direction = -sq / 2 := by
    rw [sphere_hit_diff_dot, hlo]
    unfold sphRootLo
    field_simp
    ring
  have hnn : dotv (normalize (sphere_hit_diff r s t) nl) r.direction
      = (1 / nl) * dotv (sphere_hit_diff r s t) r.direction := by
    unfold normalize scale dotv
    ring
  rw [hnn, hdot]
  apply mul_nonpos_of_nonneg_of_nonpos
  · exact one_div_nonneg.mpr hnl
  · linarith

/-- Any normal accepted from `intersect_object` opposes the ray direction,
given exterior sphere origins and exact square-root oracles. -/
theorem intersect_object_dot_le (r : Ray) (o : Object) (sq nl : ℚ) (t : XQ) (n : Vec3)
    (h : intersect_object r o sq nl = some (t, n))
    (hsq0 : 0 ≤ sq) (hnl : 0 ≤ nl)
    (hs : ∀ s, o.geom = ObjectGeom.OSphere s → sq * sq = sphDiscr r s ∧ 0 < sphC r s) :
    dotv n r.direction ≤ 0 := by
  obtain ⟨g, m⟩ := o
  cases g with
  | OCube c =>
    simp only [intersect_object] at h
    obtain ⟨ax, rfl⟩ := cube_hit_normal_shape r c t n h
    exact cube_normal_dot ax r.direction
  | OSphere s =>
    obtain ⟨hsq, hc⟩ := hs s rfl
    simp only [intersect_object] at h
    cases hi : intersect_sphere r s sq with
    | none =>
      rw [hi] at h
      exact absurd h (by simp)
    | some t' =>
      rw [hi, Option.map_some'] at h
      simp only [Option.some.injEq, Prod.mk.injEq] at h
      rw [← h.2]
      exact intersect_sphere_dot_le r s sq nl t' hi hsq hsq0 hc hnl

/-- The nearest-hit fold preserves a non-positive normal-direction dot. -/
theorem trace_go_dot (r : Ray) (sq nl : ℕ → ℚ)
    (hsq0 : ∀ i, 0 ≤ sq i) (hnl0 : ∀ i, 0 ≤ nl i) :
    ∀ (l : List Object) (k : ℕ) (st : ℚ × ℤ × Vec3),
      (∀ i o s, l.get? i = some o → o.geom = ObjectGeom.OSphere s →
        sq (k + i) * sq (k + i) = sphDiscr r s ∧ 0 < sphC r s) →
      dotv st.2.2 r.direction ≤ 0 →
      dotv (trace_go r sq nl l k st).2.2 r.direction ≤ 0 := by
  intro l
  induction l with
  | nil =>
    intro k st _ hst
    exact hst
  | cons o rest ih =>
    intro k st hobj hst
    simp only [trace_go]
    apply ih (k + 1)
    · intro i o' s h1 h2
      have h0 := hobj (i + 1) o' s (by simpa using h1) h2
      have hk : k + (i + 1) = k + 1 + i := by omega
      rw [hk] at h0
      exact h0
    · cases hio : intersect_object r o (sq k) (nl k) with
      | none => simpa [hio] using hst
      | some tn =>
        obtain ⟨t, n⟩ := tn
        cases hxs : xsel t st.1 with
        | none => simpa [hio, hxs] using hst
        | some q =>
          simp only [hio, hxs]
          have hk0 : k + 0 = k := by omega
          apply intersect_object_dot_le r o (sq k) (nl k) t n hio (hsq0 k) (hnl0 k)
          intro s hg
          have := hobj 0 o s rfl hg
          rwa [hk0] at this

/-- C5 amended: every hit reported by `trace_ray` has
`dot(normal, direction) ≤ 0`, provided the ray origin lies strictly outside
every sphere of the scene (box hits need no restriction); the claim's
allowance for origins inside a primitive is what fails. -/
theorem C5_amended (scene : List Object) (r : Ray) (dlen : ℚ) (sq nl : ℕ → ℚ)
    (hdlen : 0 < dlen) (hsq0 : ∀ i, 0 ≤ sq i) (hnl0 : ∀ i, 0 ≤ nl i)
    (hs : ∀ i o s, scene.get? i = some o → o.geom = ObjectGeom.OSphere s →
      sq i * sq i = sphDiscr ⟨r.origin, normalize r.direction dlen⟩ s ∧
      0 < sphC ⟨r.origin, normalize r.direction dlen⟩ s) :
    (trace_ray scene r dlen sq nl).object ≠ -1 →
    dotv (trace_ray scene r dlen sq nl).normal r.direction ≤ 0 := by
  intro _
  unfold trace_ray
  have hmain : dotv (trace_go ⟨r.origin, normalize r.direction dlen⟩ sq nl scene 0
      (FLT_MAX, -1, ⟨0, 0, 0⟩)).2.2 (⟨r.origin, normalize r.direction dlen⟩ : Ray).direction ≤ 0 := by
    apply trace_go_dot _ sq nl hsq0 hnl0 scene 0
    · intro i o s h1 h2
      have := hs i o s h1 h2
      simpa using this
    · unfold dotv
      norm_num
  have hrel : ∀ w : Vec3,
      dotv w (⟨r.origin, normalize r.direction dlen⟩ : Ray).direction
        = (1 / dlen) * dotv w r.direction := by
    intro w
    unfold normalize scale dotv
    ring
  by_cases hm : (trace_go ⟨r.origin, normalize r.direction dlen⟩ sq nl scene 0
      (FLT_MAX, -1, ⟨0, 0, 0⟩)).2.1 = -1
  · simp only [hm, if_pos rfl]
    unfold dotv
    norm_num
  · simp only [if_neg hm]
    have h1 := hmain
    rw [hrel] at h1
    have hinv : 0 < 1 / dlen := one_div_pos.mpr hdlen
    nlinarith [h1, hinv]

/-- C5: the claim is false for a ray starting inside a sphere.  In the
one-sphere scene around the origin, the ray from the origin along +X (with
exact oracles: discriminant 4 with square root 2, hit-vector length 1)
reports a hit at the exit point (1,0,0) with the outward normal (1,0,0),
whose dot with the ray direction is 1 > 0. -/
theorem C5_counterexample :
    (trace_ray sceneAround rayX 1 (fun _ => 2) (fun _ => 1)).object = 0 ∧
    (trace_ray sceneAround rayX 1 (fun _ => 2) (fun _ => 1)).normal = ⟨1, 0, 0⟩ ∧
    0 < dotv (trace_ray sceneAround rayX 1 (fun _ => 2) (fun _ => 1)).normal rayX.direction ∧
    (2 : ℚ) * 2 = sphDiscr ⟨rayX.origin, normalize rayX.direction 1⟩ sphAround ∧
    (1 : ℚ) * 1 = dotv (sphere_hit_diff ⟨rayX.origin, normalize rayX.direction 1⟩ sphAround 1)
      (sphere_hit_diff ⟨rayX.origin, normalize rayX.direction 1⟩ sphAround 1) := by
  norm_num [trace_ray, trace_go, intersect_object, intersect_sphere, sph_sort, sph_pick,
    sphDiscr, sphB, sphA, sphC, sphOC, sphRootHi, sphRootLo, sphere_hit_diff,
    normalize, scale, combine, dotv, xsel, FLT_MAX, sceneAround, sphAround, rayX]

/-- C5 witness: the amended theorem on the one-sphere scene whose ray origin
is strictly outside the sphere. -/
theorem C5_witness :
    (0 : ℚ) < 1 ∧
    ((trace_ray sceneOutside rayX 1 (fun _ => 2) (fun _ => 1)).object ≠ -1 →
      dotv (trace_ray sceneOutside rayX 1 (fun _ => 2) (fun _ => 1)).normal rayX.direction ≤ 0) :=
  ⟨by norm_num,
   C5_amended sceneOutside rayX 1 (fun _ => 2) (fun _ => 1) (by norm_num)
     (fun _ => by norm_num) (fun _ => by norm_num)
     (by
       intro i o s h1 h2
       match i with
       | 0 =>
         simp only [sceneOutside, List.get?, Option.some.injEq] at h1
         rw [← h1] at h2
         simp only [ObjectGeom.OSphere.injEq] at h2
         rw [← h2]
         constructor <;>
           norm_num [sphDiscr, sphB, sphA, sphC, sphOC, dotv, combine, normalize, scale,
             rayX, sphOutside]
       | i + 1 =>
         simp only [sceneOutside, List.get?] at h1
         exact Option.noConfusion h1)⟩

/-- The emissive-object scan equals its first-qualifying-object
characterization, for every starting index. -/
theorem sampled_light_go_eq (allObjs : List Object) (hitObj : ℤ) (hp hn : Vec3)
    (rd : ℕ → Vec3) (slen : ℕ → ℚ) (tors : ℕ → TraceO) :
    ∀ (l : List Object) (j ridx : ℕ),
      sampled_light_go allObjs hitObj hp hn rd slen tors l j ridx =
      (match firstEmissive_go hitObj l j with
       | none => (⟨0, 0, 0⟩, ridx)
       | some (_, o) =>
         (scale (shadow_sum allObjs hp hn (combine (origin_of o) hp 1 (-1))
             rd ridx slen tors 5) (1/5),
          ridx + 5)) := by
  intro l
  induction l with
  | nil => intro j ridx; rfl
  | cons o rest ih =>
    intro j ridx
    by_cases hc : o.material.emission_power = 0 ∨ (j : ℤ) = hitObj
    · have hc' : ¬(o.material.emission_power ≠ 0 ∧ (j : ℤ) ≠ hitObj) := by tauto
      simp only [sampled_light_go, firstEmissive_go, if_pos hc, if_neg hc']
      exact ih (j + 1) ridx
    · have hc' : o.material.emission_power ≠ 0 ∧ (j : ℤ) ≠ hitObj := by tauto
      simp only [sampled_light_go, firstEmissive_go, if_neg hc, if_pos hc']

/-- C6: the direct-light estimate of each bounce equals the claim-shaped
computation: only the first object in scan order with nonzero emission power
and index different from the hit object is processed; its 5 shadow samples
(offset 0.001, each contributing the emission of whatever object it hits and
zero on a miss) are summed and divided by 5; with no such object the
estimate is zero. -/
theorem C6_light_selection (allObjs : List Object) (hitObj : ℤ) (hp hn : Vec3)
    (rd : ℕ → Vec3) (ridx : ℕ) (slen : ℕ → ℚ) (tors : ℕ → TraceO) :
    sampled_light allObjs hitObj hp hn rd ridx slen tors =
    sampled_light_spec allObjs hitObj hp hn rd ridx slen tors := by
  unfold sampled_light sampled_light_spec firstEmissive
  exact sampled_light_go_eq allObjs hitObj hp hn rd slen tors allObjs 0 ridx

/-- The final clamp keeps a component inside [0,1]. -/
theorem clamp01_mem (x : ℚ) : 0 ≤ clamp x 0 1 ∧ clamp x 0 1 ≤ 1 := by
  unfold clamp
  split_ifs <;> constructor <;> linarith

/-- C7: `pixel` (the spec's `sample_pixel`) returns componentwise values in
[0,1] for every screen coordinate in [0,1]^2 and every aspect ratio (for
every environment: scene, skybox, camera, random streams and oracles). -/
theorem C7_clamp (env : PEnv) (u v a : ℚ)
    (hu0 : 0 ≤ u) (hu1 : u ≤ 1) (hv0 : 0 ≤ v) (hv1 : v ≤ 1) :
    inUnit (pixel env u v a) := by
  unfold pixel inUnit
  exact ⟨(clamp01_mem _).1, (clamp01_mem _).2, (clamp01_mem _).1,
    (clamp01_mem _).2, (clamp01_mem _).1, (clamp01_mem _).2⟩

/-- C7 witness: the clamp theorem at the center pixel of the empty scene
under the all-white skybox. -/
theorem C7_witness :
    ((0 : ℚ) ≤ 1/2 ∧ (1/2 : ℚ) ≤ 1) ∧ inUnit (pixel envEmpty (1/2) (1/2) 1) :=
  ⟨⟨by norm_num, by norm_num⟩,
   C7_clamp envEmpty (1/2) (1/2) 1 (by norm_num) (by norm_num) (by norm_num) (by norm_num)⟩

/-- The nearest-hit fold reports the sentinel or an index below the scene
size. -/
theorem trace_go_object_range (r : Ray) (sq nl : ℕ → ℚ) :
    ∀ (l : List Object) (k : ℕ) (st : ℚ × ℤ × Vec3),
      (st.2.1 = -1 ∨ (0 ≤ st.2.1 ∧ st.2.1 < (k : ℤ))) →
      ((trace_go r sq nl l k st).2.1 = -1 ∨
        (0 ≤ (trace_go r sq nl l k st).2.1 ∧
         (trace_go r sq nl l k st).2.1 < ((k + l.length : ℕ) : ℤ))) := by
  intro l
  induction l with
  | nil =>
    intro k st h
    simpa using h
  | cons o rest ih =>
    intro k st h
    have hlen : (k + (o :: rest).length : ℕ) = (k + 1) + rest.length := by
      simp [List.length_cons]
      omega
    simp only [trace_go]
    rw [hlen]
    have hweak : ∀ st' : ℚ × ℤ × Vec3,
        (st'.2.1 = -1 ∨ (0 ≤ st'.2.1 ∧ st'.2.1 < (k : ℤ))) →
        (st'.2.1 = -1 ∨ (0 ≤ st'.2.1 ∧ st'.2.1 < ((k + 1 : ℕ) : ℤ))) := by
      intro st' h'
      rcases h' with h' | h'
      · exact Or.inl h'
      · refine Or.inr ⟨h'.1, ?_⟩
        have := h'.2
        push_cast
        push_cast at this
        omega
    cases hio : intersect_object r o (sq k) (nl k) with
    | none =>
      simp only [hio]
      exact ih (k + 1) st (hweak st h)
    | some tn =>
      obtain ⟨t, n⟩ := tn
      cases hxs : xsel t st.1 with
      | none =>
        simp only [hio, hxs]
        exact ih (k + 1) st (hweak st h)
      | some q =>
        simp only [hio, hxs]
        apply ih (k + 1)
        refine Or.inr ⟨by positivity, ?_⟩
        push_cast
        omega

/-- `trace_ray` reports the sentinel or an index below the scene size. -/
theorem trace_ray_object_range (scene : List Object) (r : Ray) (dlen : ℚ)
    (sq nl : ℕ → ℚ) :
    (trace_ray scene r dlen sq nl).object = -1 ∨
    (0 ≤ (trace_ray scene r dlen sq nl).object ∧
     (trace_ray scene r dlen sq nl).object < (scene.length : ℤ)) := by
  unfold trace_ray
  have h := trace_go_object_range ⟨r.origin, normalize r.direction dlen⟩ sq nl scene 0
    (FLT_MAX, -1, ⟨0, 0, 0⟩) (Or.inl rfl)
  by_cases hm : (trace_go ⟨r.origin, normalize r.direction dlen⟩ sq nl scene 0
      (FLT_MAX, -1, ⟨0, 0, 0⟩)).2.1 = -1
  · left
    simp [hm]
  · right
    simp only [if_neg hm]
    rcases h with h | h
    · exact absurd h hm
    · simpa using h

/-- An in-range `objects[i]` access yields a member of the scene list. -/
theorem objGet_mem (l : List Object) (i : ℤ) (h0 : 0 ≤ i) (h1 : i < (l.length : ℤ)) :
    objGet l i ∈ l := by
  unfold objGet
  have hn : i.toNat < l.length := by omega
  rw [List.getD_eq_getElem l defaultObject hn]
  exact List.getElem_mem hn

/-- A unit-interval value multiplied by `albedo * (1 - metallic)` stays in
the unit interval and does not increase. -/
theorem unit_mul_bound (c a m : ℚ) (hc0 : 0 ≤ c) (hc1 : c ≤ 1) (ha0 : 0 ≤ a)
    (ha1 : a ≤ 1) (hm0 : 0 ≤ m) (hm1 : m ≤ 1) :
    0 ≤ c * (a * (1 - m)) ∧ c * (a * (1 - m)) ≤ 1 ∧ c * (a * (1 - m)) ≤ c := by
  have h1 : 0 ≤ 1 - m := by linarith
  have h2 : 0 ≤ a * (1 - m) := mul_nonneg ha0 h1
  have h3 : a * (1 - m) ≤ 1 := by nlinarith
  refine ⟨mul_nonneg hc0 h2, ?_, ?_⟩
  · nlinarith
  · nlinarith

/-- One bounce either keeps the throughput or multiplies it by factors in
[0,1]: it stays in the unit cube and does not increase. -/
theorem contrib_step_bound (c : Vec3) (m : Material) (isSpec : Bool) (zero : Prop)
    [Decidable zero] (hc : inUnit c) (hm : materialOK m) :
    inUnit (if zero then (if isSpec then c else mulv c (scale m.albedo (1 - m.metallic)))
            else scale (if isSpec then c else mulv c (scale m.albedo (1 - m.metallic)))
              (1 - 5/100)) ∧
    vle (if zero then (if isSpec then c else mulv c (scale m.albedo (1 - m.metallic)))
         else scale (if isSpec then c else mulv c (scale m.albedo (1 - m.metallic)))
           (1 - 5/100)) c := by
  obtain ⟨hcx0, hcx1, hcy0, hcy1, hcz0, hcz1⟩ := hc
  obtain ⟨hax0, hax1, hay0, hay1, haz0, haz1, hm0, hm1⟩ := hm
  have h1 : inUnit (if isSpec then c else mulv c (scale m.albedo (1 - m.metallic))) ∧
      vle (if isSpec then c else mulv c (scale m.albedo (1 - m.metallic))) c := by
    cases isSpec with
    | true =>
      simp only [if_pos rfl]
      exact ⟨⟨hcx0, hcx1, hcy0, hcy1, hcz0, hcz1⟩, le_refl _, le_refl _, le_refl _⟩
    | false =>
      have hif : (if (false : Bool) = true then c else mulv c (scale m.albedo (1 - m.metallic)))
          = mulv c (scale m.albedo (1 - m.metallic)) := by simp
      rw [hif]
      unfold mulv scale inUnit vle
      dsimp only
      obtain ⟨qx1, qx2, qx3⟩ :=
        unit_mul_bound c.x m.albedo.x m.metallic hcx0 hcx1 hax0 hax1 hm0 hm1
      obtain ⟨qy1, qy2, qy3⟩ :=
        unit_mul_bound c.y m.albedo.y m.metallic hcy0 hcy1 hay0 hay1 hm0 hm1
      obtain ⟨qz1, qz2, qz3⟩ :=
        unit_mul_bound c.z m.albedo.z m.metallic hcz0 hcz1 haz0 haz1 hm0 hm1
      exact ⟨⟨qx1, qx2, qy1, qy2, qz1, qz2⟩, qx3, qy3, qz3⟩
  obtain ⟨⟨h1x0, h1x1, h1y0, h1y1, h1z0, h1z1⟩, h1vx, h1vy, h1vz⟩ := h1
  set w := (if isSpec = true then c else mulv c (scale m.albedo (1 - m.metallic))) with hw
  clear_value w
  by_cases hz : zero
  · simp only [if_pos hz]
    exact ⟨⟨h1x0, h1x1, h1y0, h1y1, h1z0, h1z1⟩, h1vx, h1vy, h1vz⟩
  · simp only [if_neg hz]
    unfold scale inUnit vle
    dsimp only
    refine ⟨⟨?_, ?_, ?_, ?_, ?_, ?_⟩, ?_, ?_, ?_⟩ <;> nlinarith

/-- One bounce keeps the throughput in the unit cube and never increases it
componentwise, given a scene whose materials are in range. -/
theorem bounce_contrib (env : PEnv) (i : ℕ) (st : PState)
    (hmat : ∀ o ∈ env.scene, materialOK o.material)
    (h : inUnit st.contrib) :
    inUnit (bounce env i st).contrib ∧ vle (bounce env i st).contrib st.contrib := by
  unfold bounce
  by_cases hdone : st.done
  · rw [if_pos hdone]
    exact ⟨h, le_refl _, le_refl _, le_refl _⟩
  · rw [if_neg hdone]
    dsimp only
    by_cases hmiss : (trace_ray env.scene st.in_ray (env.bo i).prim.dlen (env.bo i).prim.sq
        (env.bo i).prim.nl).object = -1
    · rw [if_pos hmiss]
      exact ⟨h, le_refl _, le_refl _, le_refl _⟩
    · rw [if_neg hmiss]
      rcases trace_ray_object_range env.scene st.in_ray (env.bo i).prim.dlen
          (env.bo i).prim.sq (env.bo i).prim.nl with hm2 | ⟨hge, hlt⟩
      · exact absurd hm2 hmiss
      · exact contrib_step_bound st.contrib
          ((objGet env.scene (trace_ray env.scene st.in_ray (env.bo i).prim.dlen
            (env.bo i).prim.sq (env.bo i).prim.nl).object).material) _ _ h
          (hmat _ (objGet_mem env.scene _ hge hlt))

/-- The throughput is in the unit cube after every number of bounces. -/
theorem run_contrib_inUnit (env : PEnv) (x y a : ℚ)
    (hmat : ∀ o ∈ env.scene, materialOK o.material) :
    ∀ k, inUnit (run_bounces env x y a k).contrib := by
  intro k
  induction k with
  | zero =>
    unfold run_bounces inUnit
    norm_num
  | succ n ihn => exact (bounce_contrib env n _ hmat ihn).1

/-- C8: the path throughput `contrib` starts at (1,1,1), stays componentwise
inside [0,1] at every bounce, and is componentwise non-increasing from each
bounce to the next (specular bounces keep it, diffuse bounces multiply by
`albedo * (1 - metallic)`, a nonzero light sample scales it by 0.95), for
every scene whose albedo components and metallic are in [0,1]. -/
theorem C8_energy (env : PEnv) (x y a : ℚ)
    (hmat : ∀ o ∈ env.scene, materialOK o.material) (k : ℕ) :
    (run_bounces env x y a 0).contrib = ⟨1, 1, 1⟩ ∧
    inUnit (run_bounces env x y a k).contrib ∧
    vle (run_bounces env x y a (k + 1)).contrib (run_bounces env x y a k).contrib := by
  refine ⟨rfl, run_contrib_inUnit env x y a hmat k, ?_⟩
  exact (bounce_contrib env k _ hmat (run_contrib_inUnit env x y a hmat k)).2

/-- C8 witness: the energy bound at the empty scene (materials trivially in
range), first bounce. -/
theorem C8_witness :
    (∀ o ∈ envEmpty.scene, materialOK o.material) ∧
    ((run_bounces envEmpty (1/2) (1/2) 1 0).contrib = ⟨1, 1, 1⟩ ∧
     inUnit (run_bounces envEmpty (1/2) (1/2) 1 1).contrib ∧
     vle (run_bounces envEmpty (1/2) (1/2) 1 2).contrib
       (run_bounces envEmpty (1/2) (1/2) 1 1).contrib) :=
  ⟨fun o ho => absurd ho (List.not_mem_nil o),
   C8_energy envEmpty (1/2) (1/2) 1 (fun o ho => absurd ho (List.not_mem_nil o)) 1⟩

/-- C10 witness: the direction (1,1,1), where all three absolute components
tie, selects the front face. -/
theorem C10_witness :
    (¬(absf (1:ℚ) > absf 1 ∧ absf (1:ℚ) > absf 1)) ∧
    (cubemap_face_uv ⟨1, 1, 1⟩).1 =
      if (1 : ℚ) > 0 then CubeFace.CF_FRONT else CubeFace.CF_BACK :=
  ⟨by decide, C10_zface ⟨1, 1, 1⟩ (by decide) (by decide) (by decide)⟩

end RayTracing
